import Mathlib

/-!
Shallow embedding of the SurakshaOS capability registry
(`src/kernel/src/capability.rs`) and zero-copy IPC subsystem
(`src/kernel/src/ipc.rs`), together with theorems settling the
specification's claims about them.

Machine integers (`u64`, `u32`, `usize`, `u8`) are modelled as `Nat`;
every arithmetic operation the embedded code performs is guarded in the
source so that no wraparound is reachable, and where a modulus matters
(ring-buffer cursors) it is written explicitly.  The global statics
(`NEXT_CAPABILITY_ID`, `CAPABILITY_REGISTRY`) are threaded as an
explicit state value `KState`.
-/

namespace Suraksha

/-- Capability types (`CapabilityType` in capability.rs). -/
inductive CapabilityType where
  | Memory
  | FileSystem
  | Network
  | Device
  | IPC
  | Process
  | Crypto
  | Time
deriving DecidableEq, Repr

/-- Resource identifier (`ResourceId` in capability.rs). -/
inductive ResourceId where
  | Memory (start : Nat) (size : Nat)
  | File (path : String)
  | Network (ip : List Nat) (port : Nat)
  | Device (device_id : Nat)
  | IPC (channel_id : Nat)
  | Process (pid : Nat)
  | CryptoKey (key_id : Nat)
deriving DecidableEq, Repr

/-- Permission set: five boolean rights (`PermissionSet` in capability.rs). -/
structure PermissionSet where
  read : Bool
  write : Bool
  execute : Bool
  delete : Bool
  delegate : Bool
deriving DecidableEq, Repr

/-- Embeds `PermissionSet::READ_ONLY`. -/
def PermissionSet.READ_ONLY : PermissionSet :=
  ⟨true, false, false, false, false⟩

/-- Embeds `PermissionSet::READ_WRITE`. -/
def PermissionSet.READ_WRITE : PermissionSet :=
  ⟨true, true, false, false, false⟩

/-- Embeds `PermissionSet::FULL`. -/
def PermissionSet.FULL : PermissionSet :=
  ⟨true, true, true, true, true⟩

/-- Embeds `PermissionSet::is_subset_of`: pointwise implication of the five rights. -/
def PermissionSet.is_subset_of (s other : PermissionSet) : Bool :=
  (!s.read || other.read)
    && (!s.write || other.write)
    && (!s.execute || other.execute)
    && (!s.delete || other.delete)
    && (!s.delegate || other.delegate)

/-- Capability token (`Capability` in capability.rs). -/
structure Capability where
  id : Nat
  cap_type : CapabilityType
  resource_id : ResourceId
  permissions : PermissionSet
  expiry : Nat
  parent : Option Nat
  depth : Nat
  revoked : Bool
deriving DecidableEq, Repr

/-- Audit operations (`AuditOperation` in capability.rs). -/
inductive AuditOperation where
  | Created
  | Delegated
  | Used
  | Revoked
  | Expired
deriving DecidableEq, Repr

/-- Audit log entry (`AuditEntry` in capability.rs). -/
structure AuditEntry where
  timestamp : Nat
  operation : AuditOperation
  capability_id : Nat
  process_id : Nat
deriving DecidableEq, Repr

/-- The capability registry: id-keyed capability map (a `BTreeMap` in the
source, embedded as an association list with unique keys) plus the
append-only audit log. -/
structure CapabilityRegistry where
  capabilities : List (Nat × Capability)
  audit_log : List AuditEntry
deriving DecidableEq, Repr

/-- Whole-subsystem state: the `NEXT_CAPABILITY_ID` atomic counter and the
global `CAPABILITY_REGISTRY`. -/
structure KState where
  next_id : Nat
  registry : CapabilityRegistry
deriving DecidableEq, Repr

/-- State at kernel start: counter at 1, empty registry, empty audit log. -/
def emptyState : KState :=
  { next_id := 1, registry := { capabilities := [], audit_log := [] } }

/-- Embeds `get_timestamp` from capability.rs, which returns 0 (a placeholder
in the source). -/
def getTimestamp : Nat := 0

/-- Embeds `get_current_process_id` from capability.rs, which returns 0 (a
placeholder in the source). -/
def getCurrentProcessId : Nat := 0

/-- Embeds `usize::MAX` on the 64-bit target. -/
def USIZE_MAX : Nat := 2 ^ 64 - 1

/-- Embeds `BTreeMap::insert`: replace the value at an existing key, otherwise add
the binding. -/
def mapInsert (l : List (Nat × Capability)) (k : Nat) (v : Capability) :
    List (Nat × Capability) :=
  if l.any (fun p => p.1 = k) then
    l.map (fun p => if p.1 = k then (k, v) else p)
  else
    l ++ [(k, v)]

/-- Embeds `BTreeMap::get_mut` followed by a field write: update the value at a key
if present. -/
def mapUpdate (l : List (Nat × Capability)) (k : Nat) (v : Capability) :
    List (Nat × Capability) :=
  l.map (fun p => if p.1 = k then (k, v) else p)

/-- Embeds `BTreeMap::get`: look up the capability stored under a key. -/
def lookupCap (l : List (Nat × Capability)) (k : Nat) : Option Capability :=
  (l.find? (fun p => p.1 = k)).map (fun p => p.2)

/-- Embeds `create_root_capability`: mint the full-rights, never-expiring, depth-0
capability over the whole address space, register it, and log `Created`
with process id 0. -/
def createRootCapability (st : KState) : KState × Capability :=
  let id := st.next_id
  let cap : Capability :=
    { id := id
      cap_type := CapabilityType.Memory
      resource_id := ResourceId.Memory 0 USIZE_MAX
      permissions := PermissionSet.FULL
      expiry := 0
      parent := none
      depth := 0
      revoked := false }
  ({ next_id := id + 1
     registry :=
      { capabilities := mapInsert st.registry.capabilities id cap
        audit_log := st.registry.audit_log ++
          [{ timestamp := getTimestamp, operation := AuditOperation.Created
             capability_id := id, process_id := 0 }] } },
   cap)

/-- Capability errors (`CapabilityError` in capability.rs). -/
inductive CapabilityError where
  | NotFound
  | Revoked
  | Expired
  | PermissionDenied
  | ParentRevoked
  | NoDelegatePermission
  | PermissionEscalation
  | DelegationDepthExceeded
deriving DecidableEq, Repr

/-- Common tail of `create_capability` after the delegation checks: allocate
the next id, build the capability (expiry 0, depth `parent.depth + 1` or 0),
insert it, and log `Delegated` when a parent was supplied, else `Created`. -/
def mintCapability (st : KState) (cap_type : CapabilityType)
    (resource_id : ResourceId) (permissions : PermissionSet)
    (parent : Option Capability) : KState × Except CapabilityError Capability :=
  let id := st.next_id
  let cap : Capability :=
    { id := id
      cap_type := cap_type
      resource_id := resource_id
      permissions := permissions
      expiry := 0
      parent := parent.map (fun p => p.id)
      depth := (parent.map (fun p => p.depth + 1)).getD 0
      revoked := false }
  ({ next_id := id + 1
     registry :=
      { capabilities := mapInsert st.registry.capabilities id cap
        audit_log := st.registry.audit_log ++
          [{ timestamp := getTimestamp
             operation := if parent.isSome then AuditOperation.Delegated
                          else AuditOperation.Created
             capability_id := id, process_id := getCurrentProcessId }] } },
   Except.ok cap)

/-- Embeds `create_capability`: when a parent is supplied, check (in source order)
that it is not revoked, that it carries the delegate right, that the
requested permissions are a subset of the parent's, and that its depth is
below 255; then fall through to the common minting tail. -/
def createCapability (st : KState) (cap_type : CapabilityType)
    (resource_id : ResourceId) (permissions : PermissionSet)
    (parent : Option Capability) : KState × Except CapabilityError Capability :=
  match parent with
  | some parent_cap =>
    if parent_cap.revoked then
      (st, Except.error CapabilityError.ParentRevoked)
    else if !parent_cap.permissions.delegate then
      (st, Except.error CapabilityError.NoDelegatePermission)
    else if !(permissions.is_subset_of parent_cap.permissions) then
      (st, Except.error CapabilityError.PermissionEscalation)
    else if 255 ≤ parent_cap.depth then
      (st, Except.error CapabilityError.DelegationDepthExceeded)
    else
      mintCapability st cap_type resource_id permissions parent
  | none => mintCapability st cap_type resource_id permissions parent

/-- Permission request (`Permission` in capability.rs). -/
inductive Permission where
  | Read
  | Write
  | Execute
  | Delete
  | Delegate
deriving DecidableEq, Repr

/-- The `has_permission` match inside `validate_capability`. -/
def hasPermissionFor (p : PermissionSet) (permission : Permission) : Bool :=
  match permission with
  | Permission.Read => p.read
  | Permission.Write => p.write
  | Permission.Execute => p.execute
  | Permission.Delete => p.delete
  | Permission.Delegate => p.delegate

/-- Embeds `validate_capability`: checks the revoked flag of the token value it is
handed (not the registry's entry), then expiry, then the requested right,
and on success appends a `Used` audit entry. -/
def validateCapability (st : KState) (capability : Capability)
    (permission : Permission) : KState × Except CapabilityError Unit :=
  if capability.revoked then
    (st, Except.error CapabilityError.Revoked)
  else if 0 < capability.expiry ∧ capability.expiry < getTimestamp then
    (st, Except.error CapabilityError.Expired)
  else if !(hasPermissionFor capability.permissions permission) then
    (st, Except.error CapabilityError.PermissionDenied)
  else
    ({ st with registry :=
        { st.registry with audit_log := st.registry.audit_log ++
            [{ timestamp := getTimestamp, operation := AuditOperation.Used
               capability_id := capability.id
               process_id := getCurrentProcessId }] } },
     Except.ok ())

/-- Embeds `revoke_capability`: look up the target (else `NotFound`), set its
revoked flag, then set the revoked flag of every registry entry whose
`parent` equals the target's id (the direct children only — the source
collects `c.parent == Some(capability_id)` and flips exactly those), and
append one `Revoked` audit entry for the target. -/
def revokeCapability (st : KState) (capability_id : Nat) :
    KState × Except CapabilityError Unit :=
  match lookupCap st.registry.capabilities capability_id with
  | none => (st, Except.error CapabilityError.NotFound)
  | some cap =>
    let caps1 := mapUpdate st.registry.capabilities capability_id
      { cap with revoked := true }
    let caps2 := caps1.map (fun p =>
      if p.2.parent = some capability_id then
        (p.1, { p.2 with revoked := true })
      else p)
    ({ st with registry :=
        { capabilities := caps2
          audit_log := st.registry.audit_log ++
            [{ timestamp := getTimestamp, operation := AuditOperation.Revoked
               capability_id := capability_id
               process_id := getCurrentProcessId }] } },
     Except.ok ())

/-- Capability statistics (`CapabilityStats` in capability.rs). -/
structure CapabilityStats where
  total_capabilities : Nat
  active_capabilities : Nat
  revoked_capabilities : Nat
  audit_entries : Nat
deriving DecidableEq, Repr

/-- Embeds `get_stats`: total entry count, count of non-revoked entries, count of
revoked entries, audit log length. -/
def getStats (st : KState) : CapabilityStats :=
  { total_capabilities := st.registry.capabilities.length
    active_capabilities :=
      (st.registry.capabilities.filter (fun p => !p.2.revoked)).length
    revoked_capabilities :=
      (st.registry.capabilities.filter (fun p => p.2.revoked)).length
    audit_entries := st.registry.audit_log.length }

/-- IPC errors (`IpcError` in ipc.rs). -/
inductive IpcError where
  | BufferFull
  | BufferEmpty
  | MessageTooLarge
  | PermissionDenied
  | CapabilityError
  | ChannelNotFound
deriving DecidableEq, Repr

/-- Embeds `RING_BUFFER_SIZE` from ipc.rs. -/
def RING_BUFFER_SIZE : Nat := 4096

/-- The SPSC ring buffer (`RingBuffer` in ipc.rs).  The raw byte region is
embedded as a total function from offsets to byte values. -/
structure RingBuffer where
  buffer : Nat → Nat
  size : Nat
  write_pos : Nat
  read_pos : Nat
  count : Nat

/-- Embeds `RingBuffer::new`: fresh cursors and occupancy; the allocation's
contents are unspecified in the source and embedded as all zeros (they are
never read before being written). -/
def RingBuffer.new (size : Nat) : RingBuffer :=
  { buffer := fun _ => 0, size := size, write_pos := 0, read_pos := 0
    count := 0 }

/-- One `copy_nonoverlapping` into the region: write the bytes of `data`
at consecutive offsets starting at `pos`. -/
def copySeg (buf : Nat → Nat) (pos : Nat) (data : List Nat) : Nat → Nat :=
  match data with
  | [] => buf
  | d :: rest => copySeg (Function.update buf pos d) (pos + 1) rest

/-- The buffer mutation performed by `RingBuffer::write`: if the message
does not fit before the end of the region, copy the first `size - pos`
bytes there and the remainder at offset 0, else copy it in one piece. -/
def writeWrap (buf : Nat → Nat) (pos size : Nat) (data : List Nat) :
    Nat → Nat :=
  if data.length > size - pos then
    copySeg (copySeg buf pos (data.take (size - pos))) 0
      (data.drop (size - pos))
  else
    copySeg buf pos data

/-- Read `n` consecutive bytes of the region starting at `pos`. -/
def readSeg (buf : Nat → Nat) (pos n : Nat) : List Nat :=
  (List.range n).map (fun i => buf (pos + i))

/-- The bytes extracted by `RingBuffer::read`: two segments when the read
spans the end of the region, one otherwise. -/
def ringRead (buf : Nat → Nat) (pos size len : Nat) : List Nat :=
  if pos + len > size then
    readSeg buf pos (size - pos) ++ readSeg buf 0 (len - (size - pos))
  else
    readSeg buf pos len

/-- Embeds `RingBuffer::write`: reject with `BufferFull` when the occupancy
counter `count` (which the source increments once per message) has reached
`RING_BUFFER_SIZE`; otherwise copy the bytes at the write cursor (wrapping
at the end of the region), advance the cursor modulo `size`, and increment
`count`. -/
def RingBuffer.write (rb : RingBuffer) (data : List Nat) :
    RingBuffer × Except IpcError Nat :=
  let len := data.length
  if RING_BUFFER_SIZE ≤ rb.count then
    (rb, Except.error IpcError.BufferFull)
  else
    let buf := writeWrap rb.buffer rb.write_pos rb.size data
    let new_pos := (rb.write_pos + len) % rb.size
    ({ rb with buffer := buf, write_pos := new_pos, count := rb.count + 1 },
     Except.ok len)

/-- Embeds `RingBuffer::read`: reject with `BufferEmpty` when `count` is zero;
otherwise compute the available bytes from the gap between the cursors,
copy `min destLen available` bytes out (wrapping at the end of the
region), advance the read cursor modulo `size`, and decrement `count`.
Returns the bytes read (the source fills a caller buffer and returns
their number). -/
def RingBuffer.read (rb : RingBuffer) (destLen : Nat) :
    RingBuffer × Except IpcError (List Nat) :=
  if rb.count = 0 then
    (rb, Except.error IpcError.BufferEmpty)
  else
    let available :=
      if rb.read_pos ≤ rb.write_pos then rb.write_pos - rb.read_pos
      else rb.size - rb.read_pos + rb.write_pos
    let len := min destLen available
    let out := ringRead rb.buffer rb.read_pos rb.size len
    let new_pos := (rb.read_pos + len) % rb.size
    ({ rb with read_pos := new_pos, count := rb.count - 1 }, Except.ok out)

/-- Message types (`MessageType` in ipc.rs). -/
inductive MessageType where
  | Request
  | Reply
  | Notification
  | Error
deriving DecidableEq, Repr

/-- Discriminant byte of `MessageType` (declaration order in the source). -/
def msgTypeTag (t : MessageType) : Nat :=
  match t with
  | MessageType.Request => 0
  | MessageType.Reply => 1
  | MessageType.Notification => 2
  | MessageType.Error => 3

/-- Decode a `MessageType` discriminant byte (total on the four valid
tags; other byte values are undefined behaviour in the source and mapped
to `Request` here, they are never produced by `send_message`). -/
def tagToMsgType (n : Nat) : MessageType :=
  if n = 1 then MessageType.Reply
  else if n = 2 then MessageType.Notification
  else if n = 3 then MessageType.Error
  else MessageType.Request

/-- Message payload (`MessageData` in ipc.rs).  The inline variant carries
the full 64-byte array. -/
inductive MessageData where
  | Inline (bytes : List Nat)
  | SharedMemory (addr : Nat) (size : Nat) (capability : Capability)
deriving DecidableEq, Repr

/-- IPC message (`IpcMessage` in ipc.rs). -/
structure IpcMessage where
  id : Nat
  sender : Nat
  msg_type : MessageType
  data : MessageData
  capabilities : List Capability
deriving DecidableEq, Repr

/-- Fixed-size message header (`MessageHeader` in ipc.rs, `repr(C)`):
8-byte id, 4-byte sender, 1-byte message-type tag, 1-byte data-type tag. -/
structure MessageHeader where
  id : Nat
  sender : Nat
  msg_type : MessageType
  data_type : Nat
deriving DecidableEq, Repr

/-- Little-endian byte encoding of a `w`-byte machine integer, as laid out
on the little-endian 64-bit target. -/
def leBytes (w n : Nat) : List Nat :=
  (List.range w).map (fun i => n / 256 ^ i % 256)

/-- Little-endian byte decoding. -/
def leDecode (bytes : List Nat) : Nat :=
  bytes.foldr (fun b acc => b + 256 * acc) 0

/-- The raw bytes of a `MessageHeader` (`size_of::<MessageHeader>() = 16`:
id at offsets 0-7, sender at 8-11, message-type tag at 12, data-type tag
at 13, two padding bytes). -/
def headerBytes (h : MessageHeader) : List Nat :=
  leBytes 8 h.id ++ leBytes 4 h.sender ++ [msgTypeTag h.msg_type]
    ++ [h.data_type] ++ [0, 0]

/-- Parse a `MessageHeader` back from 16 raw bytes (the
`core::ptr::read` in `receive_message`). -/
def parseHeader (b : List Nat) : MessageHeader :=
  { id := leDecode (b.take 8)
    sender := leDecode ((b.drop 8).take 4)
    msg_type := tagToMsgType (b.getD 12 0)
    data_type := b.getD 13 0 }

/-- IPC channel (`IpcChannel` in ipc.rs): two ring buffers and the gating
capability. -/
structure IpcChannel where
  id : Nat
  sender_pid : Nat
  receiver_pid : Nat
  send_ring : RingBuffer
  recv_ring : RingBuffer
  capability : Capability

/-- Embeds `create_channel`: allocate the next channel id, two
`RING_BUFFER_SIZE` ring buffers, and a parentless `READ_WRITE` capability
of kind IPC scoped to the channel id (any capability error is collapsed to
`IpcError::CapabilityError`).  `nextChanId` threads the `NEXT_CHANNEL_ID`
static. -/
def createChannel (st : KState) (nextChanId : Nat)
    (sender_pid receiver_pid : Nat) :
    (KState × Nat) × Except IpcError IpcChannel :=
  let id := nextChanId
  let send_ring := RingBuffer.new RING_BUFFER_SIZE
  let recv_ring := RingBuffer.new RING_BUFFER_SIZE
  match createCapability st CapabilityType.IPC (ResourceId.IPC id)
      PermissionSet.READ_WRITE none with
  | (st', Except.ok capability) =>
    ((st', id + 1),
     Except.ok
      { id := id, sender_pid := sender_pid, receiver_pid := receiver_pid
        send_ring := send_ring, recv_ring := recv_ring
        capability := capability })
  | (st', Except.error _) =>
    ((st', id + 1), Except.error IpcError.CapabilityError)

/-- Embeds `send_message`: validate the channel capability for `Write` (any
failure collapsed to `IpcError::PermissionDenied`), write the 16 header
bytes to the channel's `send_ring`, then write the payload — the 64
inline bytes, or for shared memory only the 16 bytes of the
`(addr, size)` pair. -/
def sendMessage (st : KState) (ch : IpcChannel) (message : IpcMessage) :
    (KState × IpcChannel) × Except IpcError Unit :=
  match validateCapability st ch.capability Permission.Write with
  | (st', Except.error _) => ((st', ch), Except.error IpcError.PermissionDenied)
  | (st', Except.ok _) =>
    let header : MessageHeader :=
      { id := message.id
        sender := message.sender
        msg_type := message.msg_type
        data_type := match message.data with
          | MessageData.Inline _ => 0
          | MessageData.SharedMemory _ _ _ => 1 }
    match ch.send_ring.write (headerBytes header) with
    | (r1, Except.error e) =>
      ((st', { ch with send_ring := r1 }), Except.error e)
    | (r1, Except.ok _) =>
      match message.data with
      | MessageData.Inline bytes =>
        match r1.write bytes with
        | (r2, Except.error e) =>
          ((st', { ch with send_ring := r2 }), Except.error e)
        | (r2, Except.ok _) =>
          ((st', { ch with send_ring := r2 }), Except.ok ())
      | MessageData.SharedMemory addr size _ =>
        match r1.write (leBytes 8 addr ++ leBytes 8 size) with
        | (r2, Except.error e) =>
          ((st', { ch with send_ring := r2 }), Except.error e)
        | (r2, Except.ok _) =>
          ((st', { ch with send_ring := r2 }), Except.ok ())

/-- Embeds `receive_message`: validate the channel capability for `Read`, read 16
header bytes from the channel's `recv_ring` into a zeroed stack array,
parse the header, then read the payload matching the data-type tag.  For a
shared-memory message, mint a derived `READ_ONLY` memory capability over
exactly `(addr, size)` with the channel capability as parent (any
capability error collapsed to `IpcError::CapabilityError`). -/
def receiveMessage (st : KState) (ch : IpcChannel) :
    (KState × IpcChannel) × Except IpcError IpcMessage :=
  match validateCapability st ch.capability Permission.Read with
  | (st', Except.error _) => ((st', ch), Except.error IpcError.PermissionDenied)
  | (st', Except.ok _) =>
    match ch.recv_ring.read 16 with
    | (r1, Except.error e) =>
      ((st', { ch with recv_ring := r1 }), Except.error e)
    | (r1, Except.ok hb) =>
      let header := parseHeader (hb ++ List.replicate (16 - hb.length) 0)
      if header.data_type = 0 then
        match r1.read 64 with
        | (r2, Except.error e) =>
          ((st', { ch with recv_ring := r2 }), Except.error e)
        | (r2, Except.ok db) =>
          ((st', { ch with recv_ring := r2 }),
           Except.ok
            { id := header.id, sender := header.sender
              msg_type := header.msg_type
              data := MessageData.Inline
                (db ++ List.replicate (64 - db.length) 0)
              capabilities := [] })
      else
        match r1.read 16 with
        | (r2, Except.error e) =>
          ((st', { ch with recv_ring := r2 }), Except.error e)
        | (r2, Except.ok sb) =>
          let refb := sb ++ List.replicate (16 - sb.length) 0
          let addr := leDecode (refb.take 8)
          let size := leDecode ((refb.drop 8).take 8)
          match createCapability st' CapabilityType.Memory
              (ResourceId.Memory addr size) PermissionSet.READ_ONLY
              (some ch.capability) with
          | (st'', Except.error _) =>
            ((st'', { ch with recv_ring := r2 }),
             Except.error IpcError.CapabilityError)
          | (st'', Except.ok capability) =>
            ((st'', { ch with recv_ring := r2 }),
             Except.ok
              { id := header.id, sender := header.sender
                msg_type := header.msg_type
                data := MessageData.SharedMemory addr size capability
                capabilities := [] })

/-- The receiver endpoint's view of a channel: its receive direction is
the sender's send direction.  Used to ask what `receive_message` yields
on the ring that `send_message` actually wrote to. -/
def swapRings (ch : IpcChannel) : IpcChannel :=
  { ch with send_ring := ch.recv_ring, recv_ring := ch.send_ring }

/-!
## Concrete scenarios

A delegation chain `root → a → b → c` plus a sibling of `a`, followed by
`revoke(a.id)`; the audit-sequence scenario of §8; and a channel carrying
one shared-memory message.
-/

/-- Kernel bootstrap: the root capability and the state holding it. -/
def rootInit : KState × Capability := createRootCapability emptyState

/-- Delegate `a` from the root with full rights. -/
def chainA : KState × Except CapabilityError Capability :=
  createCapability rootInit.1 CapabilityType.Memory (ResourceId.Memory 4096 4096)
    PermissionSet.FULL (some rootInit.2)

/-- The capability `a` (id 2). -/
def capA : Capability := chainA.2.toOption.getD rootInit.2

/-- Delegate `b` from `a`. -/
def chainB : KState × Except CapabilityError Capability :=
  createCapability chainA.1 CapabilityType.Memory (ResourceId.Memory 4096 2048)
    PermissionSet.FULL (some capA)

/-- The capability `b` (id 3). -/
def capB : Capability := chainB.2.toOption.getD rootInit.2

/-- Delegate `c` from `b`. -/
def chainC : KState × Except CapabilityError Capability :=
  createCapability chainB.1 CapabilityType.Memory (ResourceId.Memory 4096 1024)
    PermissionSet.FULL (some capB)

/-- The capability `c` (id 4). -/
def capC : Capability := chainC.2.toOption.getD rootInit.2

/-- A sibling of `a`, delegated from the root, not descended from `a`. -/
def chainSib : KState × Except CapabilityError Capability :=
  createCapability chainC.1 CapabilityType.Memory (ResourceId.Memory 8192 4096)
    PermissionSet.READ_ONLY (some rootInit.2)

/-- The sibling capability (id 5). -/
def capSib : Capability := chainSib.2.toOption.getD rootInit.2

/-- The revocation call `revoke(a.id)` on the full chain state. -/
def chainRevoke : KState × Except CapabilityError Unit :=
  revokeCapability chainSib.1 capA.id

/-- Registry state after `revoke(a.id)`. -/
def chainRevoked : KState := chainRevoke.1

/-- A placeholder channel used only as the `getD` default. -/
def dummyChannel : IpcChannel :=
  { id := 0, sender_pid := 0, receiver_pid := 0
    send_ring := RingBuffer.new RING_BUFFER_SIZE
    recv_ring := RingBuffer.new RING_BUFFER_SIZE
    capability := rootInit.2 }

/-- The call `create_channel(10, 20)` on a fresh kernel state. -/
def c2Channel : (KState × Nat) × Except IpcError IpcChannel :=
  createChannel emptyState 1 10 20

/-- The created channel. -/
def c2Chan : IpcChannel := c2Channel.2.toOption.getD dummyChannel

/-- The shared-memory message of the zero-copy example:
`SharedMemory{addr=0x2000, size=4096}`. -/
def c2Msg : IpcMessage :=
  { id := 42, sender := 7, msg_type := MessageType.Request
    data := MessageData.SharedMemory 8192 4096 c2Chan.capability
    capabilities := [] }

/-- The send call of the zero-copy example. -/
def c2Send : (KState × IpcChannel) × Except IpcError Unit :=
  sendMessage c2Channel.1.1 c2Chan c2Msg

/-- The audit-example scenario: one delegation from the root with
read-only rights. -/
def auditChild : KState × Except CapabilityError Capability :=
  createCapability rootInit.1 CapabilityType.Memory (ResourceId.Memory 0 8)
    PermissionSet.READ_ONLY (some rootInit.2)

/-- The delegated child of the audit example. -/
def auditChildCap : Capability := auditChild.2.toOption.getD rootInit.2

/-- State after `validate(child, Read)` in the audit example. -/
def auditValidated : KState × Except CapabilityError Unit :=
  validateCapability auditChild.1 auditChildCap Permission.Read

/-- State after `revoke(child.id)` in the audit example. -/
def auditFinal : KState × Except CapabilityError Unit :=
  revokeCapability auditValidated.1 auditChildCap.id

/-- Total byte size of a queue of pending messages. -/
def totalLen (msgs : List (List Nat)) : Nat :=
  (msgs.map List.length).sum

/-- Abstraction relation between a ring buffer and the queue of pending
messages it holds: the occupancy counter counts the messages, the write
cursor sits `totalLen msgs` bytes (mod `size`) past the read cursor, the
pending bytes fit strictly below the capacity, and the region holds their
concatenation starting at the read cursor. -/
def rbMatches (rb : RingBuffer) (msgs : List (List Nat)) : Prop :=
  rb.write_pos < rb.size ∧
  rb.read_pos < rb.size ∧
  rb.count = msgs.length ∧
  rb.write_pos = (rb.read_pos + totalLen msgs) % rb.size ∧
  totalLen msgs < rb.size ∧
  ∀ i, i < totalLen msgs →
    rb.buffer ((rb.read_pos + i) % rb.size) = msgs.flatten.getD i 0

deriving instance DecidableEq for Except

/-!
## Theorems
-/

/-- Every set of permissions is a subset of `FULL`. -/
theorem is_subset_of_FULL (q : PermissionSet) :
    q.is_subset_of PermissionSet.FULL = true := by
  cases q
  simp [PermissionSet.is_subset_of, PermissionSet.FULL]

/-- Splitting a capability list by the revoked flag counts every entry
exactly once. -/
theorem length_filter_revoked_split (l : List (Nat × Capability)) :
    (l.filter (fun p => !p.2.revoked)).length
      + (l.filter (fun p => p.2.revoked)).length = l.length := by
  induction l with
  | nil => simp
  | cons h t ih =>
    by_cases hp : h.2.revoked <;> simp [List.filter, hp] <;> omega

/-- Claim C10: in every registry state, `get_stats` returns counts with
`total_capabilities = active_capabilities + revoked_capabilities`: each
registered capability is counted exactly once, as active when its revoked
flag is false and as revoked when it is true. -/
theorem c10_stats_partition (st : KState) :
    (getStats st).total_capabilities
      = (getStats st).active_capabilities
        + (getStats st).revoked_capabilities := by
  have h := length_filter_revoked_split st.registry.capabilities
  simp only [getStats]
  omega

/-- Successful `create_capability` through a parent implies all four
delegation guards passed and the call reduced to the minting tail. -/
theorem create_ok_guards (st : KState) (k : CapabilityType) (r : ResourceId)
    (perms : PermissionSet) (p : Capability) (st' : KState) (cap : Capability)
    (h : createCapability st k r perms (some p) = (st', Except.ok cap)) :
    p.revoked = false ∧ p.permissions.delegate = true ∧
      perms.is_subset_of p.permissions = true ∧ p.depth < 255 ∧
      mintCapability st k r perms (some p) = (st', Except.ok cap) := by
  simp only [createCapability] at h
  by_cases h1 : p.revoked
  · simp [h1] at h
  by_cases h2 : p.permissions.delegate
  on_goal 2 => simp [h1, h2] at h
  by_cases h3 : perms.is_subset_of p.permissions
  on_goal 2 => simp [h1, h2, h3] at h
  by_cases h4 : 255 ≤ p.depth
  · simp [h1, h2, h3, h4] at h
  simp only [h1, h2, h3, h4] at h
  refine ⟨by simp [h1], by simp [h2], by simp [h3], by omega, ?_⟩
  simpa [h1, h2, h3, h4] using h

/-- The capability returned by the minting tail, field by field. -/
theorem mint_ok_cap (st : KState) (k : CapabilityType) (r : ResourceId)
    (perms : PermissionSet) (par : Option Capability) (st' : KState)
    (cap : Capability)
    (h : mintCapability st k r perms par = (st', Except.ok cap)) :
    cap = { id := st.next_id, cap_type := k, resource_id := r
            permissions := perms, expiry := 0
            parent := par.map (fun p => p.id)
            depth := (par.map (fun p => p.depth + 1)).getD 0
            revoked := false } := by
  simp only [mintCapability, Prod.mk.injEq, Except.ok.injEq] at h
  exact h.2.symm

/-- Claim C5: every successful `create(kind, resource, permissions,
Some(parent))` returns a capability whose permission set is a subset of
the parent's (pointwise over the five rights) and whose depth is
`parent.depth + 1`. -/
theorem c5_subset_invariant (st : KState) (k : CapabilityType)
    (r : ResourceId) (perms : PermissionSet) (p : Capability) (st' : KState)
    (cap : Capability)
    (h : createCapability st k r perms (some p) = (st', Except.ok cap)) :
    cap.permissions.is_subset_of p.permissions = true ∧
      cap.depth = p.depth + 1 := by
  obtain ⟨-, -, hsub, -, hmint⟩ := create_ok_guards st k r perms p st' cap h
  have hcap := mint_ok_cap st k r perms (some p) st' cap hmint
  subst hcap
  exact ⟨hsub, rfl⟩

/-- Witness for C5: a concrete delegation from the root. -/
theorem c5_subset_invariant_witness :
    capA.permissions.is_subset_of rootInit.2.permissions = true ∧
      capA.depth = rootInit.2.depth + 1 :=
  c5_subset_invariant rootInit.1 CapabilityType.Memory
    (ResourceId.Memory 4096 4096) PermissionSet.FULL rootInit.2
    chainA.1 capA rfl

/-- Claim C4 (amended): when the parent is not revoked and holds the
delegate right, a `create` request whose permissions are not a subset of
the parent's returns `PermissionEscalation` and leaves the whole state —
registry and id counter — unchanged. -/
theorem c4_no_escalation (st : KState) (k : CapabilityType) (r : ResourceId)
    (perms : PermissionSet) (p : Capability)
    (h1 : p.revoked = false) (h2 : p.permissions.delegate = true)
    (h3 : perms.is_subset_of p.permissions = false) :
    createCapability st k r perms (some p)
      = (st, Except.error CapabilityError.PermissionEscalation) := by
  simp [createCapability, h1, h2, h3]

/-- A non-revoked, delegation-capable parent whose permission set is
read/delegate only. -/
def c4Parent : Capability :=
  { id := 9, cap_type := CapabilityType.Memory
    resource_id := ResourceId.Memory 0 4096
    permissions := ⟨true, false, false, false, true⟩
    expiry := 0, parent := none, depth := 0, revoked := false }

/-- Witness for C4: requesting `FULL` from `c4Parent` escalates. -/
theorem c4_no_escalation_witness :
    createCapability emptyState CapabilityType.Memory
      (ResourceId.Memory 0 4096) PermissionSet.FULL (some c4Parent)
      = (emptyState, Except.error CapabilityError.PermissionEscalation) :=
  c4_no_escalation emptyState CapabilityType.Memory (ResourceId.Memory 0 4096)
    PermissionSet.FULL c4Parent (by decide) (by decide) (by decide)

/-- A revoked parent with read-only permissions. -/
def c4RevokedParent : Capability :=
  { id := 9, cap_type := CapabilityType.Memory
    resource_id := ResourceId.Memory 0 4096
    permissions := PermissionSet.READ_ONLY
    expiry := 0, parent := none, depth := 0, revoked := true }

/-- Counterexample for C4 as stated: a call whose permissions are not a
subset of the parent's returns `ParentRevoked`, not `PermissionEscalation`,
because the revocation check precedes the subset check. -/
theorem c4_counterexample :
    PermissionSet.FULL.is_subset_of c4RevokedParent.permissions = false ∧
    (createCapability emptyState CapabilityType.Memory
        (ResourceId.Memory 0 4096) PermissionSet.FULL
        (some c4RevokedParent)).2
      = Except.error CapabilityError.ParentRevoked ∧
    CapabilityError.ParentRevoked ≠ CapabilityError.PermissionEscalation := by
  decide

/-- Claim C9: every capability minted by `create_capability` or
`create_root_capability` has `expiry = 0`, and `validate_capability` never
returns `Expired` for a capability with `expiry = 0` (the `Expired` branch
is unreachable for system-minted capabilities). -/
theorem c9_never_expired :
    (∀ (st : KState) (k : CapabilityType) (r : ResourceId)
        (perms : PermissionSet) (par : Option Capability) (st' : KState)
        (cap : Capability),
        createCapability st k r perms par = (st', Except.ok cap) →
          cap.expiry = 0) ∧
    (∀ st : KState, (createRootCapability st).2.expiry = 0) ∧
    (∀ (st : KState) (cap : Capability) (perm : Permission),
        cap.expiry = 0 →
          (validateCapability st cap perm).2
            ≠ Except.error CapabilityError.Expired) := by
  refine ⟨?_, ?_, ?_⟩
  · intro st k r perms par st' cap h
    have hmint : mintCapability st k r perms par = (st', Except.ok cap) := by
      match par with
      | none => simpa [createCapability] using h
      | some p => exact (create_ok_guards st k r perms p st' cap h).2.2.2.2
    have := mint_ok_cap st k r perms par st' cap hmint
    subst this
    rfl
  · intro st
    rfl
  · intro st cap perm h
    simp only [validateCapability, h]
    by_cases h1 : cap.revoked
    · simp [h1]
    by_cases h2 : hasPermissionFor cap.permissions perm
    · simp [h1, h2]
    · simp [h1, h2]

/-- Witness for C9: the root capability never expires, and validating it
cannot return `Expired`. -/
theorem c9_never_expired_witness :
    rootInit.2.expiry = 0 ∧
      (validateCapability rootInit.1 rootInit.2 Permission.Read).2
        ≠ Except.error CapabilityError.Expired :=
  ⟨c9_never_expired.2.1 emptyState,
   c9_never_expired.2.2 rootInit.1 rootInit.2 Permission.Read
     (c9_never_expired.2.1 emptyState)⟩

/-- Claim C1 (failing run): in the chain `root → a → b → c` with a sibling
of `a`, after `revoke(a.id)` returns `Ok`, validation of the held copies
of `a`, `b` and `c` still returns `Ok` (the source checks the revoked
flag of the copy it is handed, which revocation never touches), and even
the registry's own entry for the grandchild `c` still validates `Ok`
(revocation flips only direct children).  Only the last conjunct —
sibling still valid — agrees with the claim. -/
theorem c1_cascade_violated :
    chainRevoke.2 = Except.ok () ∧
    (validateCapability chainRevoked capA Permission.Read).2 = Except.ok () ∧
    (validateCapability chainRevoked capB Permission.Read).2 = Except.ok () ∧
    (validateCapability chainRevoked capC Permission.Read).2 = Except.ok () ∧
    (validateCapability chainRevoked
        ((lookupCap chainRevoked.registry.capabilities capC.id).getD capC)
        Permission.Read).2 = Except.ok () ∧
    (validateCapability chainRevoked capSib Permission.Read).2
      = Except.ok () := by
  decide

/-- Claim C3 (failing run): after `revoke(a.id)` on the chain
`root → a → b → c`, the registry entries of `a` and its direct child `b`
are revoked, but the grandchild `c` — a transitive descendant of `a`
(`c.parent = b.id`, `b.parent = a.id`) — is not. -/
theorem c3_subtree_not_revoked :
    (lookupCap chainRevoked.registry.capabilities capA.id).map
        (fun c => c.revoked) = some true ∧
    (lookupCap chainRevoked.registry.capabilities capB.id).map
        (fun c => c.revoked) = some true ∧
    (lookupCap chainRevoked.registry.capabilities capC.id).map
        (fun c => c.revoked) = some false ∧
    capB.parent = some capA.id ∧
    capC.parent = some capB.id := by
  decide

/-- Claim C2 (failing run): a shared-memory message is sent successfully,
but `receive_message` on the same channel value returns `BufferEmpty`
(`send` writes to `send_ring` while `receive` reads `recv_ring`), and even
on the receiver endpoint view — reading the ring the sender wrote —
receive returns `CapabilityError`, because the channel capability is
minted with `READ_WRITE` (no delegate right) and the derived read-only
capability mint is rejected with `NoDelegatePermission`.  No shared-memory
message is ever returned to a receiver. -/
theorem c2_shared_memory_receive_fails :
    c2Send.2 = Except.ok () ∧
    (receiveMessage c2Send.1.1 c2Send.1.2).2
      = Except.error IpcError.BufferEmpty ∧
    (receiveMessage c2Send.1.1 (swapRings c2Send.1.2)).2
      = Except.error IpcError.CapabilityError ∧
    c2Chan.capability.permissions.delegate = false := by
  decide

/-- Any 4096-byte write into a fresh 4096-byte ring buffer is accepted,
and so is the next write of any size: the full-buffer check compares the
message count, not the pending byte count, against the capacity. -/
theorem write_after_full_accepted (d w : List Nat) (h : d.length = 4096) :
    ((RingBuffer.new 4096).write d).2 = Except.ok 4096 ∧
    (((RingBuffer.new 4096).write d).1.write w).2 = Except.ok w.length := by
  constructor
  · simp [RingBuffer.write, RingBuffer.new, RING_BUFFER_SIZE, h]
  · simp [RingBuffer.write, RingBuffer.new, RING_BUFFER_SIZE, h]

/-- Claim C6 (failing run): after a write of 4096 bytes fills the
4096-byte transport with no intervening read, the next 1-byte write is
accepted with `Ok(1)` instead of being rejected with `BufferFull`
(overwriting unread data). -/
theorem c6_full_buffer_not_rejected :
    ((RingBuffer.new 4096).write (List.replicate 4096 1)).2
      = Except.ok 4096 ∧
    (((RingBuffer.new 4096).write (List.replicate 4096 1)).1.write [7]).2
      = Except.ok 1 :=
  write_after_full_accepted (List.replicate 4096 1) [7]
    (by simp only [List.length_replicate])

/-- After a write of exactly 4096 bytes into a fresh 4096-byte ring
buffer, a read with a 4096-byte destination returns zero bytes: the
cursors coincide and the gap computation reports nothing available. -/
theorem read_after_exact_capacity_write (d : List Nat)
    (h : d.length = 4096) :
    (((RingBuffer.new 4096).write d).1.read 4096).2 = Except.ok [] := by
  simp [RingBuffer.write, RingBuffer.new, RingBuffer.read, RING_BUFFER_SIZE,
    ringRead, readSeg, h]

/-- Counterexample for C7 as stated: a single write whose size equals the
capacity (so the running total never exceeds it) is not returned by the
matching exact-size read — the read yields zero bytes and the message is
lost. -/
theorem c7_counterexample :
    (((RingBuffer.new 4096).write (List.replicate 4096 37)).1.read 4096).2
      = Except.ok [] ∧
    (((RingBuffer.new 4096).write (List.replicate 4096 37)).1.read 4096).2
      ≠ Except.ok (List.replicate 4096 37) := by
  have h := read_after_exact_capacity_write (List.replicate 4096 37)
    (by simp only [List.length_replicate])
  refine ⟨h, ?_⟩
  rw [h]
  intro hc
  have h2 : ([] : List Nat) = List.replicate 4096 37 := by
    injection hc
  have hlen := congrArg List.length h2
  rw [List.length_replicate] at hlen
  simp only [List.length_nil] at hlen
  exact absurd hlen (by decide)

/-- Claim C8: starting from the empty registry, `create_root()`, one
successful `create(..., Some(root))`, one successful
`validate(child, Read)` and one successful `revoke(child.id)` leave an
audit log of exactly 4 entries whose operations are, in order,
`[Created, Delegated, Used, Revoked]`. -/
theorem c8_audit_completeness (k : CapabilityType) (r : ResourceId)
    (p : PermissionSet) (st2 : KState) (child : Capability) (st3 st4 : KState)
    (h1 : createCapability rootInit.1 k r p (some rootInit.2)
      = (st2, Except.ok child))
    (h2 : validateCapability st2 child Permission.Read = (st3, Except.ok ()))
    (h3 : revokeCapability st3 child.id = (st4, Except.ok ())) :
    st4.registry.audit_log.map (fun e => e.operation)
      = [AuditOperation.Created, AuditOperation.Delegated,
         AuditOperation.Used, AuditOperation.Revoked] := by
  have hrev : rootInit.2.revoked = false := rfl
  have hdel : rootInit.2.permissions.delegate = true := rfl
  have hdep : rootInit.2.depth = 0 := rfl
  have hsub : p.is_subset_of rootInit.2.permissions = true := by
    have hperm : rootInit.2.permissions = PermissionSet.FULL := rfl
    rw [hperm]
    exact is_subset_of_FULL p
  simp only [createCapability, hrev, hdel, hsub, hdep, Bool.not_true,
    Bool.false_eq_true, if_false, reduceIte] at h1
  simp only [mintCapability, Prod.mk.injEq, Except.ok.injEq,
    Nat.reduceLeDiff, reduceIte, Option.map_some', Option.getD_some,
    Option.isSome_some, if_true] at h1
  obtain ⟨hst2, hchild⟩ := h1
  subst hst2
  subst hchild
  simp only [validateCapability, Bool.false_eq_true, if_false, Nat.lt_irrefl,
    false_and, reduceIte] at h2
  by_cases hread : hasPermissionFor p Permission.Read
  on_goal 2 => simp [hread] at h2
  simp only [hread, Bool.not_true, Bool.false_eq_true, if_false, reduceIte,
    Prod.mk.injEq] at h2
  obtain ⟨hst3, -⟩ := h2
  subst hst3
  simp [revokeCapability, lookupCap, mapInsert, mapUpdate, rootInit,
    createRootCapability, emptyState, getTimestamp, getCurrentProcessId,
    USIZE_MAX] at h3
  subst h3
  rfl

/-- Witness for C8: the concrete audit-example run. -/
theorem c8_audit_completeness_witness :
    auditFinal.1.registry.audit_log.map (fun e => e.operation)
      = [AuditOperation.Created, AuditOperation.Delegated,
         AuditOperation.Used, AuditOperation.Revoked] :=
  c8_audit_completeness CapabilityType.Memory (ResourceId.Memory 0 8)
    PermissionSet.READ_ONLY auditChild.1 auditChildCap auditValidated.1
    auditFinal.1 rfl rfl rfl

/-- Bytes outside the copied segment are untouched by `copySeg`. -/
theorem copySeg_out (data : List Nat) :
    ∀ (buf : Nat → Nat) (pos q : Nat),
      q < pos ∨ pos + data.length ≤ q → copySeg buf pos data q = buf q := by
  induction data with
  | nil => intro buf pos q _; rfl
  | cons d rest ih =>
    intro buf pos q h
    simp only [List.length_cons] at h
    simp only [copySeg]
    rw [ih (Function.update buf pos d) (pos + 1) q (by omega)]
    have hne : q ≠ pos := by omega
    exact Function.update_noteq hne d buf

/-- Bytes inside the copied segment take the values of `data`. -/
theorem copySeg_in (data : List Nat) :
    ∀ (buf : Nat → Nat) (pos j : Nat), j < data.length →
      copySeg buf pos data (pos + j) = data.getD j 0 := by
  induction data with
  | nil => intro _ _ j h; simp at h
  | cons d rest ih =>
    intro buf pos j h
    simp only [copySeg]
    cases j with
    | zero =>
      rw [copySeg_out rest (Function.update buf pos d) (pos + 1) (pos + 0)
        (by omega)]
      simp [Function.update_same]
    | succ j' =>
      have hshift : pos + (j' + 1) = (pos + 1) + j' := by omega
      simp only [List.length_cons] at h
      rw [hshift, ih (Function.update buf pos d) (pos + 1) j' (by omega)]
      simp [List.getD_cons_succ]

/-- Reading a list back element by element reproduces it. -/
theorem range_map_getD (l : List Nat) :
    (List.range l.length).map (fun i => l.getD i 0) = l := by
  induction l with
  | nil => simp
  | cons h t ih =>
    rw [List.length_cons, List.range_succ_eq_map, List.map_cons, List.map_map]
    have hcomp : ((fun i => (h :: t).getD i 0) ∘ Nat.succ)
        = (fun i => t.getD i 0) := by
      funext i
      simp [List.getD_cons_succ]
    rw [hcomp, ih]
    simp [List.getD_cons_zero]

/-- Offsets below the modulus are determined by their residue from a
common base. -/
theorem mod_offset_inj (r k1 k2 s : Nat) (h1 : k1 < s) (h2 : k2 < s)
    (h : (r + k1) % s = (r + k2) % s) : k1 = k2 := by
  have hmod := Nat.ModEq.add_left_cancel' r (h : (r + k1) ≡ (r + k2) [MOD s])
  have e1 : k1 % s = k1 := Nat.mod_eq_of_lt h1
  have e2 : k2 % s = k2 := Nat.mod_eq_of_lt h2
  rw [Nat.ModEq] at hmod
  omega

/-- The two-segment extraction of `RingBuffer::read` is pointwise reading
at offsets taken modulo the region size. -/
theorem ringRead_eq_map (buf : Nat → Nat) (rp size len : Nat)
    (hrp : rp < size) (hlen : len ≤ size) :
    ringRead buf rp size len
      = (List.range len).map (fun i => buf ((rp + i) % size)) := by
  unfold ringRead
  by_cases hcase : rp + len > size
  · rw [if_pos hcase]
    have hsplit : len = (size - rp) + (len - (size - rp)) := by omega
    conv_rhs => rw [hsplit, List.range_add, List.map_append, List.map_map]
    congr 1
    · unfold readSeg
      apply List.map_congr_left
      intro i hi
      rw [List.mem_range] at hi
      rw [Nat.mod_eq_of_lt (by omega)]
    · unfold readSeg
      apply List.map_congr_left
      intro i hi
      rw [List.mem_range] at hi
      simp only [Function.comp]
      have harith : rp + ((size - rp) + i) = size + i := by omega
      rw [harith, Nat.add_mod_left, Nat.mod_eq_of_lt (by omega)]
      simp
  · rw [if_neg hcase]
    unfold readSeg
    apply List.map_congr_left
    intro i hi
    rw [List.mem_range] at hi
    rw [Nat.mod_eq_of_lt (by omega)]


/-- The bytes written by `RingBuffer::write` land at consecutive offsets
modulo the region size. -/
theorem writeWrap_in (buf : Nat → Nat) (wp size : Nat) (data : List Nat)
    (hwp : wp < size) (hlen : data.length ≤ size) :
    ∀ j, j < data.length →
      writeWrap buf wp size data ((wp + j) % size) = data.getD j 0 := by
  intro j hj
  unfold writeWrap
  by_cases hcase : data.length > size - wp
  · rw [if_pos hcase]
    by_cases hseg : j < size - wp
    · have hmod : (wp + j) % size = wp + j := Nat.mod_eq_of_lt (by omega)
      rw [hmod]
      have hdroplen : (data.drop (size - wp)).length = data.length - (size - wp) :=
        List.length_drop (size - wp) data
      rw [copySeg_out (data.drop (size - wp)) _ 0 (wp + j) (by omega)]
      have htakelen : j < (data.take (size - wp)).length := by
        rw [List.length_take]
        omega
      rw [copySeg_in (data.take (size - wp)) buf wp j htakelen]
      simp [List.getD_eq_getElem?_getD, List.getElem?_take, hseg]
    · have harith : wp + j = size + (j - (size - wp)) := by omega
      have hdroplen : (data.drop (size - wp)).length = data.length - (size - wp) :=
        List.length_drop (size - wp) data
      have hj2 : j - (size - wp) < (data.drop (size - wp)).length := by omega
      have hmod : (wp + j) % size = j - (size - wp) := by
        rw [harith, Nat.add_mod_left, Nat.mod_eq_of_lt (by omega)]
      rw [hmod]
      have hzero : j - (size - wp) = 0 + (j - (size - wp)) := by omega
      rw [hzero, copySeg_in (data.drop (size - wp)) _ 0 (j - (size - wp))
        (by omega)]
      rw [List.getD_eq_getElem?_getD, List.getElem?_drop,
        ← List.getD_eq_getElem?_getD]
      congr 1
      omega
  · rw [if_neg hcase]
    have hmod : (wp + j) % size = wp + j := Nat.mod_eq_of_lt (by omega)
    rw [hmod]
    exact copySeg_in data buf wp j hj

/-- Offsets not written by `RingBuffer::write` keep their previous
values. -/
theorem writeWrap_out (buf : Nat → Nat) (wp size : Nat) (data : List Nat)
    (hwp : wp < size) (hlen : data.length ≤ size) :
    ∀ q, (∀ j, j < data.length → q ≠ (wp + j) % size) →
      writeWrap buf wp size data q = buf q := by
  intro q hq
  unfold writeWrap
  by_cases hcase : data.length > size - wp
  · rw [if_pos hcase]
    have hdroplen : (data.drop (size - wp)).length = data.length - (size - wp) :=
      List.length_drop (size - wp) data
    have htakelen : (data.take (size - wp)).length = size - wp := by
      rw [List.length_take]
      omega
    have hq1 : data.length - (size - wp) ≤ q := by
      by_contra hlt
      push_neg at hlt
      have hj : (size - wp) + q < data.length := by omega
      refine hq ((size - wp) + q) hj ?_
      have : wp + ((size - wp) + q) = size + q := by omega
      rw [this, Nat.add_mod_left, Nat.mod_eq_of_lt (by omega)]
    rw [copySeg_out (data.drop (size - wp)) _ 0 q (by omega)]
    have hq2 : q < wp ∨ wp + (size - wp) ≤ q := by
      by_contra hmid
      push_neg at hmid
      obtain ⟨hge, hlt⟩ := hmid
      refine hq (q - wp) (by omega) ?_
      rw [Nat.mod_eq_of_lt (by omega)]
      omega
    rw [copySeg_out (data.take (size - wp)) buf wp q (by omega)]
  · rw [if_neg hcase]
    apply copySeg_out
    by_contra hmid
    push_neg at hmid
    obtain ⟨hge, hlt⟩ := hmid
    refine hq (q - wp) (by omega) ?_
    rw [Nat.mod_eq_of_lt (by omega)]
    omega


/-- Appending a message adds its length to the pending total. -/
theorem totalLen_append (msgs : List (List Nat)) (data : List Nat) :
    totalLen (msgs ++ [data]) = totalLen msgs + data.length := by
  simp [totalLen]

/-- The pending total of a non-empty queue splits off the head. -/
theorem totalLen_cons (m : List Nat) (rest : List (List Nat)) :
    totalLen (m :: rest) = m.length + totalLen rest := by
  simp [totalLen]

/-- Concatenating the pending messages yields `totalLen` bytes. -/
theorem flatten_length (msgs : List (List Nat)) :
    msgs.flatten.length = totalLen msgs := by
  simp [totalLen, List.length_flatten]

/-- A fresh ring buffer holds the empty message queue. -/
theorem rbMatches_new (size : Nat) (h : 0 < size) :
    rbMatches (RingBuffer.new size) [] := by
  refine ⟨h, h, rfl, by simp [totalLen, RingBuffer.new], by simpa [totalLen], ?_⟩
  intro i hi
  simp [totalLen] at hi

/-- A write that keeps the pending bytes strictly below the capacity
succeeds, reports the full message length, and enqueues the message. -/
theorem rb_write_step (rb : RingBuffer) (msgs : List (List Nat))
    (data : List Nat) (hinv : rbMatches rb msgs)
    (hcnt : msgs.length < RING_BUFFER_SIZE)
    (hfit : totalLen msgs + data.length < rb.size) :
    (rb.write data).2 = Except.ok data.length ∧
      rbMatches (rb.write data).1 (msgs ++ [data]) := by
  obtain ⟨hwp, hrp, hc, hwpos, htot, hbuf⟩ := hinv
  have hszpos : 0 < rb.size := by omega
  have hnotfull : ¬ (RING_BUFFER_SIZE ≤ rb.count) := by omega
  constructor
  · simp only [RingBuffer.write]
    rw [if_neg hnotfull]
  · simp only [RingBuffer.write]
    rw [if_neg hnotfull]
    refine ⟨?_, ?_, ?_, ?_, ?_, ?_⟩
    · show (rb.write_pos + data.length) % rb.size < rb.size
      exact Nat.mod_lt _ hszpos
    · show rb.read_pos < rb.size
      exact hrp
    · show rb.count + 1 = (msgs ++ [data]).length
      simp [hc]
    · show (rb.write_pos + data.length) % rb.size
        = (rb.read_pos + totalLen (msgs ++ [data])) % rb.size
      rw [totalLen_append, hwpos, Nat.mod_add_mod, Nat.add_assoc]
    · show totalLen (msgs ++ [data]) < rb.size
      rw [totalLen_append]
      omega
    · show ∀ i, i < totalLen (msgs ++ [data]) →
        writeWrap rb.buffer rb.write_pos rb.size data
          ((rb.read_pos + i) % rb.size) = (msgs ++ [data]).flatten.getD i 0
      intro i hi
      rw [totalLen_append] at hi
      have hdlen : data.length ≤ rb.size := by omega
      have hflat : (msgs ++ [data]).flatten = msgs.flatten ++ data := by
        simp [List.flatten_append]
      by_cases hiT : i < totalLen msgs
      · have huntouched : ∀ j, j < data.length →
            (rb.read_pos + i) % rb.size ≠ (rb.write_pos + j) % rb.size := by
          intro j hj heq
          rw [hwpos, Nat.mod_add_mod, Nat.add_assoc] at heq
          have := mod_offset_inj rb.read_pos i (totalLen msgs + j) rb.size
            (by omega) (by omega) heq
          omega
        rw [writeWrap_out rb.buffer rb.write_pos rb.size data hwp hdlen _
          huntouched]
        rw [hbuf i hiT, hflat,
          List.getD_append _ _ _ _ (by rw [flatten_length]; omega)]
      · have hj : i - totalLen msgs < data.length := by omega
        have hpos : (rb.read_pos + i) % rb.size
            = (rb.write_pos + (i - totalLen msgs)) % rb.size := by
          rw [hwpos, Nat.mod_add_mod, Nat.add_assoc]
          congr 2
          omega
        rw [hpos, writeWrap_in rb.buffer rb.write_pos rb.size data hwp hdlen _
          hj]
        rw [hflat, List.getD_append_right _ _ _ _
          (by rw [flatten_length]; omega)]
        rw [flatten_length]

/-- A read whose destination is exactly the size of the oldest pending
message returns exactly that message and dequeues it. -/
theorem rb_read_step (rb : RingBuffer) (m : List Nat)
    (rest : List (List Nat)) (hinv : rbMatches rb (m :: rest)) :
    (rb.read m.length).2 = Except.ok m ∧
      rbMatches (rb.read m.length).1 rest := by
  obtain ⟨hwp, hrp, hc, hwpos, htot, hbuf⟩ := hinv
  rw [totalLen_cons] at hwpos htot
  have hszpos : 0 < rb.size := by omega
  have hcount : ¬ (rb.count = 0) := by rw [hc]; simp
  have havail : (if rb.read_pos ≤ rb.write_pos
      then rb.write_pos - rb.read_pos
      else rb.size - rb.read_pos + rb.write_pos)
      = m.length + totalLen rest := by
    by_cases hcase : rb.read_pos + (m.length + totalLen rest) < rb.size
    · have heq : rb.write_pos = rb.read_pos + (m.length + totalLen rest) := by
        rw [hwpos]
        exact Nat.mod_eq_of_lt hcase
      rw [if_pos (by omega)]
      omega
    · have heq : rb.write_pos
          = rb.read_pos + (m.length + totalLen rest) - rb.size := by
        rw [hwpos, Nat.mod_eq_sub_mod (by omega), Nat.mod_eq_of_lt (by omega)]
      have hlt : rb.write_pos < rb.read_pos := by omega
      rw [if_neg (by omega)]
      omega
  have hlen : min m.length (m.length + totalLen rest) = m.length := by omega
  have hout : ringRead rb.buffer rb.read_pos rb.size
      (min m.length (if rb.read_pos ≤ rb.write_pos
        then rb.write_pos - rb.read_pos
        else rb.size - rb.read_pos + rb.write_pos)) = m := by
    rw [havail, hlen, ringRead_eq_map rb.buffer rb.read_pos rb.size m.length
      hrp (by omega)]
    have hcongr : ∀ i ∈ List.range m.length,
        rb.buffer ((rb.read_pos + i) % rb.size) = m.getD i 0 := by
      intro i hi
      rw [List.mem_range] at hi
      rw [hbuf i (by rw [totalLen_cons]; omega)]
      have hflat : (m :: rest).flatten = m ++ rest.flatten := rfl
      rw [hflat, List.getD_append _ _ _ _ (by omega)]
    rw [List.map_congr_left hcongr]
    exact range_map_getD m
  constructor
  · simp only [RingBuffer.read]
    rw [if_neg hcount]
    show Except.ok (ringRead rb.buffer rb.read_pos rb.size _) = Except.ok m
    rw [hout]
  · simp only [RingBuffer.read]
    rw [if_neg hcount]
    refine ⟨?_, ?_, ?_, ?_, ?_, ?_⟩
    · show rb.write_pos < rb.size
      exact hwp
    · show (rb.read_pos + min m.length (if rb.read_pos ≤ rb.write_pos
          then rb.write_pos - rb.read_pos
          else rb.size - rb.read_pos + rb.write_pos)) % rb.size < rb.size
      exact Nat.mod_lt _ hszpos
    · show rb.count - 1 = rest.length
      rw [hc]
      simp
    · show rb.write_pos = ((rb.read_pos + min m.length (if rb.read_pos ≤
          rb.write_pos then rb.write_pos - rb.read_pos
          else rb.size - rb.read_pos + rb.write_pos)) % rb.size
            + totalLen rest) % rb.size
      rw [havail, hlen, Nat.mod_add_mod, hwpos, Nat.add_assoc]
    · show totalLen rest < rb.size
      omega
    · show ∀ i, i < totalLen rest →
        rb.buffer (((rb.read_pos + min m.length (if rb.read_pos ≤
          rb.write_pos then rb.write_pos - rb.read_pos
          else rb.size - rb.read_pos + rb.write_pos)) % rb.size + i)
            % rb.size) = rest.flatten.getD i 0
      intro i hi
      rw [havail, hlen, Nat.mod_add_mod, Nat.add_assoc]
      rw [hbuf (m.length + i) (by rw [totalLen_cons]; omega)]
      have hflat : (m :: rest).flatten = m ++ rest.flatten := rfl
      rw [hflat, List.getD_append_right _ _ _ _ (by omega)]
      congr 1
      omega

/-- Claim C7 (amended): for any sequence of writes whose total pending
byte size stays strictly below the capacity before matching reads drain
it (witnessed by the abstraction relation `rbMatches`, with fewer than
`RING_BUFFER_SIZE` messages outstanding), each successful write enqueues
exactly its bytes, and each read with a destination exactly the size of
the oldest written message returns exactly that message's bytes,
unchanged and in FIFO order. -/
theorem c7_fifo_roundtrip (rb : RingBuffer) (msgs : List (List Nat))
    (hinv : rbMatches rb msgs) :
    (∀ data : List Nat, msgs.length < RING_BUFFER_SIZE →
       totalLen msgs + data.length < rb.size →
       (rb.write data).2 = Except.ok data.length ∧
         rbMatches (rb.write data).1 (msgs ++ [data])) ∧
    (∀ (m : List Nat) (rest : List (List Nat)), msgs = m :: rest →
       (rb.read m.length).2 = Except.ok m ∧
         rbMatches (rb.read m.length).1 rest) := by
  constructor
  · intro data h1 h2
    exact rb_write_step rb msgs data hinv h1 h2
  · intro m rest hm
    subst hm
    exact rb_read_step rb m rest hinv

/-- Witness for C7: one concrete write on a fresh transport. -/
theorem c7_fifo_roundtrip_witness :
    ((RingBuffer.new 4096).write [5, 6]).2 = Except.ok 2 ∧
      rbMatches ((RingBuffer.new 4096).write [5, 6]).1 [[5, 6]] :=
  (c7_fifo_roundtrip (RingBuffer.new 4096) []
      (rbMatches_new 4096 (by decide))).1 [5, 6] (by decide) (by decide)

end Suraksha
